import Mathlib

/-!
Verification development for the `multi_ping` concurrent probing engine
(`src/multi_ping/cli.py`).

Shallow embedding conventions:
* Python floats are modelled as rationals (`ℚ`); every float value the
  engine manipulates (delay steps 0.25/0.5/2.5, latencies, percentages)
  is dyadic, and the arithmetic performed on the delay value is exact in
  binary floating point, so `ℚ` is a faithful model for the claims here.
* The `asyncio` cooperative scheduler is modelled as a small-step
  transition system on a global configuration: each step is one atomic
  block of a task (the code it runs between two `await` suspension
  points).  Workers are indexed by their position in the address list.
* Raw `ping` process output decoding (`parse_latency_ms`) is an external
  collaborator per the spec; its result enters the model as the
  `parsedLatency` field of the probe environment.
-/

namespace MultiPing

/-- Constant `MAX_TARGETS = 20` from cli.py line 16. -/
def MAX_TARGETS : Nat := 20

/-- Constant `WINDOW_SIZE = 5` from cli.py line 17: the semaphore capacity. -/
def WINDOW_SIZE : Nat := 5

/-- Constant `DEFAULT_DELAY = 0.5` from cli.py line 18. -/
def DEFAULT_DELAY : ℚ := 1/2

/-- Constant `MIN_DELAY = 0.25` from cli.py line 19. -/
def MIN_DELAY : ℚ := 1/4

/-- Constant `MAX_DELAY = 2.5` from cli.py line 20. -/
def MAX_DELAY : ℚ := 5/2

/-- Constant `DELAY_STEP = 0.25` from cli.py line 21. -/
def DELAY_STEP : ℚ := 1/4

/-- Dataclass `PingResult` (cli.py lines 34-40): the outcome of one probe
attempt.  `latency_ms: Optional[float]` becomes `Option ℚ`,
`error: Optional[str]` becomes `Option String`. -/
structure PingResult where
  address : String
  sent : Nat
  received : Nat
  latency_ms : Option ℚ
  error : Option String
  deriving Repr, DecidableEq

/-- Property `PingResult.success` (cli.py lines 42-44):
`self.received > 0 and not self.error`.  The error strings the engine
produces are never empty, so Python truthiness of the string coincides
with `Option.isNone` here. -/
def PingResult.success (r : PingResult) : Bool :=
  decide (0 < r.received) && r.error.isNone

/-- Dataclass `PingStats` (cli.py lines 53-59): the per-target running
aggregate mutated by that target's worker. -/
structure PingStats where
  address : String
  sent : Nat := 0
  received : Nat := 0
  latency_ms : Option ℚ := none
  last_success : Bool := false
  deriving Repr, DecidableEq

/-- Property `PingStats.success_rate` (cli.py lines 61-65):
`0.0` when `sent == 0`, else `(received / sent) * 100`. -/
def PingStats.success_rate (s : PingStats) : ℚ :=
  if s.sent = 0 then 0 else ((s.received : ℚ) / (s.sent : ℚ)) * 100

/-- Method `DelayController.adjust` (cli.py lines 68-73):
`self.value = max(MIN_DELAY, min(MAX_DELAY, self.value + delta))`.
The controller state is the single stored value, so the method is the
function carrying the old stored value to the new one. -/
def adjust (value delta : ℚ) : ℚ :=
  max MIN_DELAY (min MAX_DELAY (value + delta))

/-- Method `EscapeListener._queue_adjustment` (cli.py lines 164-166):
appends a direction at the right end of the `deque`.  The deque of
pending adjustments is modelled as a list whose head is its left end. -/
def queue_adjustment (q : List Int) (direction : Int) : List Int :=
  q ++ [direction]

/-- Method `EscapeListener.consume_adjustment` (cli.py lines 102-106):
pops the left end of the deque when nonempty, otherwise returns `None`
and leaves the deque untouched.  Returns the popped value (if any)
together with the deque after the call. -/
def consume_adjustment : List Int → Option Int × List Int
  | [] => (none, [])
  | d :: rest => (some d, rest)

/-- Repeatedly calling `consume_adjustment` until it reports nothing
pending, collecting the returned directions in order.  The fuel bounds
the number of calls; any fuel at least the queue length drains it. -/
def drain_adjustments : Nat → List Int → List Int
  | 0, _ => []
  | fuel + 1, q =>
    match consume_adjustment q with
    | (none, _) => []
    | (some d, rest) => d :: drain_adjustments fuel rest

/-- Environment of one `ping_target` invocation (cli.py lines 254-272):
everything the surrounding OS supplies.  `system` is the lowercased
`platform.system()`, `pingMissing` tells whether spawning the process
raises `FileNotFoundError`, `returncode` is the process exit status and
`parsedLatency` is the value `parse_latency_ms` extracts from its
combined output (latency decoding is an external collaborator per the
spec, section 1). -/
structure ProbeEnv where
  system : String
  pingMissing : Bool
  returncode : Int
  parsedLatency : Option ℚ

/-- Function `build_ping_command` (cli.py lines 275-283). -/
def build_ping_command (system : String) (address : String) :
    Option (List String) :=
  if system = "windows" then
    some ["ping", "-n", "1", "-w", "2000", address]
  else if system = "darwin" then
    some ["ping", "-c", "1", "-W", "2000", address]
  else if system = "linux" ∨ system = "freebsd" then
    some ["ping", "-c", "1", "-W", "2", address]
  else
    none

/-- Coroutine `ping_target` (cli.py lines 254-272) as a function of its
environment: unsupported OS and missing executable short-circuit to
failed results; otherwise `success := returncode == 0`,
`received := 1 if success else 0`, a successful probe with no parsed
latency defaults to `0.0`, and `error` is `"No reply"` iff the probe
failed. -/
def ping_target (address : String) (env : ProbeEnv) : PingResult :=
  match build_ping_command env.system address with
  | none => ⟨address, 1, 0, none, some "Unsupported OS"⟩
  | some _ =>
    if env.pingMissing then
      ⟨address, 1, 0, none, some "'ping' command not found"⟩
    else
      let success : Bool := env.returncode == 0
      let latency0 := env.parsedLatency
      let received := if success then 1 else 0
      let latency := if success && latency0.isNone then some (0 : ℚ) else latency0
      let error : Option String := if success then none else some "No reply"
      ⟨address, 1, received, latency, error⟩

/-- Round-half-to-even of a rational, the rounding Python's fixed-point
float formatting performs on the exact value of the float. -/
def roundHalfEven (q : ℚ) : ℤ :=
  if Int.fract q < 1/2 then ⌊q⌋
  else if 1/2 < Int.fract q then ⌊q⌋ + 1
  else if ⌊q⌋ % 2 = 0 then ⌊q⌋ else ⌊q⌋ + 1

/-- Python format spec `.0f` on a nonnegative value: the decimal numeral
of the nearest integer. -/
def formatFixed0 (q : ℚ) : String :=
  toString (roundHalfEven q)

/-- Python format spec `.1f` on a nonnegative value: scale by ten, round
half to even, and print integer part, a point, and one digit. -/
def formatFixed1 (q : ℚ) : String :=
  let n := roundHalfEven (q * 10)
  toString (n / 10) ++ "." ++ toString (n % 10)

/-- Latency cell of a table row (cli.py line 332):
`f"{stat.latency_ms:.1f}" if stat.latency_ms is not None else "N/A"`. -/
def latencyCell : Option ℚ → String
  | none => "N/A"
  | some q => formatFixed1 q

/-- One rendered table row of `display_results`, before padding: the four
column contents computed at cli.py lines 330-333. -/
structure Row where
  address : String
  sent_recv : String
  success_pct : String
  latency : String
  deriving Repr, DecidableEq

/-- Row contents for one stats record (cli.py lines 330-333):
`sent/received`, `f"{stat.success_rate:.0f}%"`, latency cell. -/
def render_row (stat : PingStats) : Row :=
  { address := stat.address
    sent_recv := toString stat.sent ++ "/" ++ toString stat.received
    success_pct := formatFixed0 stat.success_rate ++ "%"
    latency := latencyCell stat.latency_ms }

/-- Python `f"{s:<w}"`: pad with spaces on the right up to width `w`. -/
def padRight (s : String) (w : Nat) : String :=
  s ++ String.mk (List.replicate (w - s.length) ' ')

/-- The full row line of `display_results` (cli.py line 333), colorization
aside (colors never alter the column contents). -/
def render_line (stat : PingStats) : String :=
  let r := render_row stat
  padRight r.address 35 ++ padRight r.sent_recv 12 ++
    padRight r.success_pct 12 ++ padRight r.latency 14

/-- Body of the stats loop in `display_results` (cli.py lines 329-336):
one row per stats record, in list order. -/
def display_rows (stats : List PingStats) : List Row :=
  stats.map render_row

/-! ### The worker / orchestrator transition system

`monitor_addresses` (cli.py lines 341-396) creates one `PingStats` per
distinct address (`{addr: PingStats(addr) for addr in addresses}`),
a semaphore of capacity `WINDOW_SIZE`, a stop event, and one
`ping_worker` task per entry of the address list; the worker for list
position `i` closes over `stats[addresses[i]]`, so workers for duplicate
entries share one record.  Each transition below is one atomic block of
`ping_worker` (cli.py lines 399-421), the code it executes between two
`await` points, or the orchestrator setting the stop event. -/

/-- Control position of one `ping_worker` task between suspension points:
`idle` at the top of the `while` loop, `acquiring` awaiting the
semaphore, `acquired` holding a permit just before the re-check at line
410, `probing` inside `await ping_target` (holding the permit),
`postProbe` between the stats update and the stop check at line 419,
`sleeping` inside `await asyncio.sleep`, `done` returned. -/
inductive Phase
  | idle
  | acquiring
  | acquired
  | probing
  | postProbe
  | sleeping
  | done
  deriving Repr, DecidableEq

/-- Phases during which the worker holds a semaphore permit: from the
acquisition at line 409 to the release when the `async with` block
exits after `await ping_target` returns. -/
def holdsPermit : Phase → Bool
  | .acquired => true
  | .probing => true
  | _ => false

/-- Global configuration of `monitor_addresses`: the stop event, the
free-permit count of the semaphore, each worker's phase (indexed like
the address list) and the shared stats records keyed by address (the
dict `stats`; one record per distinct address, shared by every worker
spawned for that address). -/
structure Config where
  stop : Bool
  semAvail : Nat
  phases : List Phase
  stats : String → PingStats

/-- Fresh record `PingStats(addr)` (cli.py line 342). -/
def initStats (a : String) : PingStats :=
  { address := a }

/-- Update the shared record of one address in the keyed stats map. -/
def updateStats (f : PingStats → PingStats) (a : String)
    (stats : String → PingStats) : String → PingStats :=
  fun x => if x = a then f (stats x) else stats x

/-- Statement `stat.sent += 1` (cli.py line 412). -/
def bumpSent (s : PingStats) : PingStats :=
  { s with sent := s.sent + 1 }

/-- Statements at cli.py lines 414-416 run when a probe completes:
`stat.received += result.received`, `stat.latency_ms =
result.latency_ms`, `stat.last_success = result.success` — the latency
and success flag are overwritten from this outcome unconditionally. -/
def applyOutcome (s : PingStats) (r : PingResult) : PingStats :=
  { s with
    received := s.received + r.received
    latency_ms := r.latency_ms
    last_success := r.success }

/-- Initial configuration of `monitor_addresses addresses`: stop clear,
`WINDOW_SIZE` free permits, every worker at the top of its loop, fresh
stats for every address. -/
def initConfig (addresses : List String) : Config :=
  { stop := false
    semAvail := WINDOW_SIZE
    phases := List.replicate addresses.length .idle
    stats := fun a => initStats a }

/-- One atomic scheduler step of the engine, for a fixed address list.
Each constructor is one block of `ping_worker` between suspension
points, except `setStop` which is the orchestrator (or the Ctrl+C
handler) setting the stop event.  The display lock is held only inside
the `refresh` step (no suspension point under the lock), so it
serializes output but never changes stats, permits or phases beyond
what `refresh` shows. -/
inductive Step (addresses : List String) : Config → Config → Prop
  /-- Orchestrator sets the stop event (cli.py lines 382, 387). -/
  | setStop (c : Config) :
      Step addresses c { c with stop := true }
  /-- Top-of-loop check `while not stop_event.is_set()` observes the stop
  event set: the worker returns (cli.py line 408). -/
  | loopExit (c : Config) (i : Nat)
      (hp : c.phases.get? i = some .idle)
      (hs : c.stop = true) :
      Step addresses c { c with phases := c.phases.set i .done }
  /-- Top-of-loop check passes: the worker starts awaiting the semaphore
  (cli.py lines 408-409). -/
  | loopEnter (c : Config) (i : Nat)
      (hp : c.phases.get? i = some .idle)
      (hs : c.stop = false) :
      Step addresses c { c with phases := c.phases.set i .acquiring }
  /-- Semaphore grants a permit to a waiting worker: only enabled while a
  permit is free (cli.py line 409). -/
  | acquire (c : Config) (i : Nat) (k : Nat)
      (hp : c.phases.get? i = some .acquiring)
      (ha : c.semAvail = k + 1) :
      Step addresses c { c with semAvail := k, phases := c.phases.set i .acquired }
  /-- Re-check after acquisition observes the stop event set: the `break`
  exits the `async with`, releasing the permit, and the worker returns
  without touching `sent` (cli.py lines 410-411). -/
  | recheckStop (c : Config) (i : Nat)
      (hp : c.phases.get? i = some .acquired)
      (hs : c.stop = true) :
      Step addresses c
        { c with semAvail := c.semAvail + 1, phases := c.phases.set i .done }
  /-- Re-check passes: `stat.sent += 1` on the shared record of this
  worker's address, then the probe starts (cli.py lines 410-413). -/
  | startProbe (c : Config) (i : Nat) (a : String)
      (hp : c.phases.get? i = some .acquired)
      (hs : c.stop = false)
      (haddr : addresses.get? i = some a) :
      Step addresses c
        { c with
            phases := c.phases.set i .probing
            stats := updateStats bumpSent a c.stats }
  /-- `await ping_target` completes with environment `env`: the `async
  with` block exits releasing the permit, and the stats update at lines
  414-416 runs in the same block. -/
  | finishProbe (c : Config) (i : Nat) (a : String) (env : ProbeEnv)
      (hp : c.phases.get? i = some .probing)
      (haddr : addresses.get? i = some a) :
      Step addresses c
        { c with
            semAvail := c.semAvail + 1
            phases := c.phases.set i .postProbe
            stats := updateStats (fun s => applyOutcome s (ping_target a env)) a c.stats }
  /-- Display refresh under the display lock, then the stop check at line
  419 observes the stop event set: the worker returns without sleeping
  (cli.py lines 417-420). -/
  | refreshExit (c : Config) (i : Nat)
      (hp : c.phases.get? i = some .postProbe)
      (hs : c.stop = true) :
      Step addresses c { c with phases := c.phases.set i .done }
  /-- Display refresh, stop check passes: the worker sleeps for the
  current delay (cli.py lines 417-421). -/
  | refreshSleep (c : Config) (i : Nat)
      (hp : c.phases.get? i = some .postProbe)
      (hs : c.stop = false) :
      Step addresses c { c with phases := c.phases.set i .sleeping }
  /-- `await asyncio.sleep` elapses: back to the top of the loop. -/
  | wake (c : Config) (i : Nat)
      (hp : c.phases.get? i = some .sleeping) :
      Step addresses c { c with phases := c.phases.set i .idle }

/-- Configurations the engine can reach from `initConfig addresses`. -/
def Reachable (addresses : List String) (c : Config) : Prop :=
  Relation.ReflTransGen (Step addresses) (initConfig addresses) c

/-- Python dict insertion (`d[k] = v`): overwrite in place when the key
exists, else append; keys keep first-insertion order. -/
def dictInsert (d : List (String × PingStats)) (k : String) (v : PingStats) :
    List (String × PingStats) :=
  if d.any (fun p => p.1 = k) then
    d.map (fun p => if p.1 = k then (k, v) else p)
  else
    d ++ [(k, v)]

/-- The dict comprehension `{addr: PingStats(addr) for addr in addresses}`
(cli.py line 342), as the association list a Python dict is observably
equal to. -/
def buildStats (addresses : List String) : List (String × PingStats) :=
  addresses.foldl (fun d a => dictInsert d a (initStats a)) []

/-- The worker-task list comprehension (cli.py lines 353-366): one
`ping_worker` task per entry of the address list, the task at position
`i` probing `addresses[i]`. -/
def workerAddresses (addresses : List String) : List String :=
  addresses

/-- Whether a worker phase is inside `await ping_target`. -/
def isProbing : Phase → Bool
  | .probing => true
  | _ => false

/-- Number of `ping_target` calls concurrently executing in a
configuration. -/
def inFlight (c : Config) : Nat :=
  c.phases.countP isProbing

/-- Semaphore accounting invariant: free permits plus held permits equal
the capacity `WINDOW_SIZE`. -/
def PermitInv (c : Config) : Prop :=
  c.semAvail + c.phases.countP holdsPermit = WINDOW_SIZE

/-! ### Helper lemmas -/

theorem adjust_mem (v d : ℚ) :
    MIN_DELAY ≤ adjust v d ∧ adjust v d ≤ MAX_DELAY := by
  refine ⟨le_max_left _ _, max_le ?_ (min_le_left _ _)⟩
  norm_num [MIN_DELAY, MAX_DELAY]

theorem foldl_adjust_mem (l : List ℚ) :
    ∀ v : ℚ, MIN_DELAY ≤ v → v ≤ MAX_DELAY →
      MIN_DELAY ≤ l.foldl adjust v ∧ l.foldl adjust v ≤ MAX_DELAY := by
  induction l with
  | nil => exact fun v h1 h2 => ⟨h1, h2⟩
  | cons d t ih =>
    intro v h1 h2
    simpa using ih (adjust v d) (adjust_mem v d).1 (adjust_mem v d).2

theorem drain_adjustments_of_le (fuel : Nat) :
    ∀ q : List Int, q.length ≤ fuel → drain_adjustments fuel q = q := by
  induction fuel with
  | zero =>
    intro q hq
    rw [List.eq_nil_of_length_eq_zero (Nat.le_zero.mp hq)]
    rfl
  | succ k ih =>
    intro q hq
    cases q with
    | nil => rfl
    | cons d t =>
      simp only [drain_adjustments, consume_adjustment]
      rw [ih t (by simpa using Nat.succ_le_succ_iff.mp hq)]

theorem foldl_queue_adjustment (ds : List Int) :
    ∀ q : List Int, ds.foldl queue_adjustment q = q ++ ds := by
  induction ds with
  | nil => simp
  | cons d t ih =>
    intro q
    simp [queue_adjustment, ih (q ++ [d])]

/-! ### Claims -/

/-- C3: for every starting value in `[0.25, 2.5]` and every finite
sequence of `DelayController.adjust` calls with deltas of `±0.25`, the
stored value after each call (that is, after each prefix of the calls)
remains in `[0.25, 2.5]`: the clamp saturates at the boundaries and
never wraps or errors.  The proof never needs the delta restriction —
the clamp keeps any adjustment inside the interval. -/
theorem C3_adjust_stays_clamped (v0 : ℚ)
    (hlo : MIN_DELAY ≤ v0) (hhi : v0 ≤ MAX_DELAY)
    (ds : List ℚ) (_hds : ∀ d ∈ ds, d = DELAY_STEP ∨ d = -DELAY_STEP)
    (n : Nat) :
    MIN_DELAY ≤ (ds.take n).foldl adjust v0 ∧
      (ds.take n).foldl adjust v0 ≤ MAX_DELAY :=
  foldl_adjust_mem (ds.take n) v0 hlo hhi

/-- Witness for C3 at the default delay and the call sequence
`adjust(+0.25); adjust(-0.25)`. -/
theorem C3_witness :
    MIN_DELAY ≤ ([DELAY_STEP, -DELAY_STEP].take 2).foldl adjust DEFAULT_DELAY ∧
      ([DELAY_STEP, -DELAY_STEP].take 2).foldl adjust DEFAULT_DELAY ≤ MAX_DELAY :=
  C3_adjust_stays_clamped DEFAULT_DELAY
    (by norm_num [MIN_DELAY, DEFAULT_DELAY])
    (by norm_num [MAX_DELAY, DEFAULT_DELAY])
    [DELAY_STEP, -DELAY_STEP]
    (by
      intro d hd
      rcases List.mem_cons.mp hd with h | h
      · exact Or.inl h
      · exact Or.inr (by simpa using h))
    2

/-- C4: `PingStats.success_rate` equals `(received / sent) * 100` when
`sent > 0` and equals exactly `0` when `sent = 0`; when
`received ≤ sent` the result lies in `[0, 100]`. -/
theorem C4_success_rate_bounds (s : PingStats) :
    (s.sent = 0 → s.success_rate = 0) ∧
    (0 < s.sent → s.success_rate = ((s.received : ℚ) / (s.sent : ℚ)) * 100) ∧
    (s.received ≤ s.sent → 0 ≤ s.success_rate ∧ s.success_rate ≤ 100) := by
  refine ⟨fun h => by simp [PingStats.success_rate, h], fun h => ?_, fun h => ?_⟩
  · simp [PingStats.success_rate, Nat.pos_iff_ne_zero.mp h]
  · by_cases h0 : s.sent = 0
    · simp [PingStats.success_rate, h0]
    · have hs : (0 : ℚ) < (s.sent : ℚ) := by
        exact_mod_cast Nat.pos_of_ne_zero h0
      have hr : (s.received : ℚ) ≤ (s.sent : ℚ) := by exact_mod_cast h
      have hdiv : (s.received : ℚ) / (s.sent : ℚ) ≤ 1 :=
        (div_le_one hs).mpr hr
      have hnn : (0 : ℚ) ≤ (s.received : ℚ) / (s.sent : ℚ) :=
        div_nonneg (by positivity) (le_of_lt hs)
      constructor
      · simp only [PingStats.success_rate, h0, if_false]
        positivity
      · simp only [PingStats.success_rate, h0, if_false]
        calc (s.received : ℚ) / (s.sent : ℚ) * 100 ≤ 1 * 100 := by
              exact mul_le_mul_of_nonneg_right hdiv (by norm_num)
          _ = 100 := by norm_num

/-- Witness for C4 at a concrete record with `sent = 4`, `received = 3`. -/
theorem C4_witness :
    0 ≤ PingStats.success_rate ⟨"8.8.8.8", 4, 3, none, false⟩ ∧
      PingStats.success_rate ⟨"8.8.8.8", 4, 3, none, false⟩ ≤ 100 :=
  (C4_success_rate_bounds ⟨"8.8.8.8", 4, 3, none, false⟩).2.2 (by decide)

/-- C9: from the default delay `0.5`, `adjust (+1 * 0.25)` followed by
`adjust (-1 * 0.25)` returns the stored value exactly to `0.5`; the
first adjustment engages no clamping (it is plain addition). -/
theorem C9_adjust_roundtrip :
    adjust DEFAULT_DELAY (1 * DELAY_STEP) = DEFAULT_DELAY + DELAY_STEP ∧
      adjust (adjust DEFAULT_DELAY (1 * DELAY_STEP)) ((-1) * DELAY_STEP) =
        DEFAULT_DELAY := by
  constructor <;>
    norm_num [adjust, MIN_DELAY, MAX_DELAY, DEFAULT_DELAY, DELAY_STEP,
      max_def, min_def]

/-- C6: the delay-adjustment channel is a FIFO queue: `queue_adjustment`
appends directions in keypress order at the tail, `consume_adjustment`
removes and returns the head (the oldest pending direction) — `none`
with the queue unchanged when empty — and draining a queue built from a
keypress sequence returns exactly that sequence in order. -/
theorem C6_adjustment_fifo (q ds : List Int) :
    ds.foldl queue_adjustment q = q ++ ds ∧
    consume_adjustment q = (q.head?, q.tail) ∧
    consume_adjustment [] = (none, []) ∧
    drain_adjustments ds.length (ds.foldl queue_adjustment []) = ds := by
  refine ⟨foldl_queue_adjustment ds q, ?_, rfl, ?_⟩
  · cases q <;> rfl
  · rw [foldl_queue_adjustment ds []]
    simpa using drain_adjustments_of_le ds.length ds le_rfl

/-- C5: every `PingResult` produced by `ping_target` has `sent = 1`, a
`received` of `0` or `1`, a non-`none` error field exactly when
`received = 0`, and, when the probe succeeded (`received = 1`), a
non-`none` `latency_ms`, which is `0.0` when no latency could be parsed
from the probe output. -/
theorem C5_ping_target_shape (address : String) (env : ProbeEnv) :
    (ping_target address env).sent = 1 ∧
    ((ping_target address env).received = 0 ∨
      (ping_target address env).received = 1) ∧
    ((ping_target address env).error ≠ none ↔
      (ping_target address env).received = 0) ∧
    ((ping_target address env).received = 1 →
      (ping_target address env).latency_ms ≠ none) ∧
    ((ping_target address env).received = 1 → env.parsedLatency = none →
      (ping_target address env).latency_ms = some 0) := by
  unfold ping_target
  cases build_ping_command env.system address with
  | none => simp
  | some cmd =>
    by_cases hm : env.pingMissing
    · simp [hm]
    · cases hrc : (env.returncode == 0) with
      | false => cases env.parsedLatency <;> simp [hm, hrc]
      | true => cases hl : env.parsedLatency <;> simp [hm, hrc, hl]

/-- Witness for C5 on a Linux host where the probe exits 0 and no latency
parses from its output. -/
theorem C5_witness :
    (ping_target "8.8.8.8" ⟨"linux", false, 0, none⟩).sent = 1 ∧
      (ping_target "8.8.8.8" ⟨"linux", false, 0, none⟩).latency_ms = some 0 :=
  ⟨(C5_ping_target_shape "8.8.8.8" ⟨"linux", false, 0, none⟩).1,
    (C5_ping_target_shape "8.8.8.8" ⟨"linux", false, 0, none⟩).2.2.2.2
      (by decide) rfl⟩

/-- C7: after a probe completes, the worker adds the outcome's `received`
to the cumulative counter and unconditionally overwrites `latency_ms`
and `last_success` with the outcome's values; a failed probe whose
outcome carries no latency therefore leaves `latency_ms = none`, which
the renderer displays as `N/A`. -/
theorem C7_update_overwrites (s : PingStats) (r : PingResult) :
    (applyOutcome s r).received = s.received + r.received ∧
    (applyOutcome s r).latency_ms = r.latency_ms ∧
    (applyOutcome s r).last_success = r.success ∧
    (r.latency_ms = none →
      latencyCell (applyOutcome s r).latency_ms = "N/A") := by
  refine ⟨rfl, rfl, rfl, fun h => ?_⟩
  simp [applyOutcome, latencyCell, h]

/-- Witness for C7: a target whose previous attempt succeeded with
latency 10 ms takes a failed outcome carrying no latency, and its
latency cell becomes `N/A` (the stale 10 ms is not retained). -/
theorem C7_witness :
    latencyCell (applyOutcome ⟨"8.8.8.8", 3, 2, some 10, true⟩
      ⟨"8.8.8.8", 1, 0, none, some "No reply"⟩).latency_ms = "N/A" :=
  (C7_update_overwrites ⟨"8.8.8.8", 3, 2, some 10, true⟩
    ⟨"8.8.8.8", 1, 0, none, some "No reply"⟩).2.2.2 rfl

theorem roundHalfEven_near (q : ℚ) : |(roundHalfEven q : ℚ) - q| ≤ 1/2 := by
  have h0 : (0 : ℚ) ≤ q - ⌊q⌋ := by
    have := Int.fract_nonneg q
    rwa [Int.fract] at this
  have h1 : q - ⌊q⌋ < 1 := by
    have := Int.fract_lt_one q
    rwa [Int.fract] at this
  unfold roundHalfEven
  simp only [Int.fract]
  split_ifs with ha hb hc <;> rw [abs_le] <;> push_cast <;>
    constructor <;> linarith

theorem roundHalfEven_nonneg (q : ℚ) (hq : 0 ≤ q) : 0 ≤ roundHalfEven q := by
  have hf : 0 ≤ ⌊q⌋ := Int.floor_nonneg.mpr hq
  unfold roundHalfEven
  split_ifs <;> omega

theorem formatFixed1_spec (q : ℚ) (hq : 0 ≤ q) :
    ∃ m d : ℤ, 0 ≤ m ∧ 0 ≤ d ∧ d < 10 ∧
      formatFixed1 q = toString m ++ "." ++ toString d ∧
      |((m : ℚ) + (d : ℚ) / 10) - q| ≤ 1/20 := by
  have hnn : 0 ≤ roundHalfEven (q * 10) := roundHalfEven_nonneg _ (by positivity)
  refine ⟨roundHalfEven (q * 10) / 10, roundHalfEven (q * 10) % 10,
    Int.ediv_nonneg hnn (by norm_num), Int.emod_nonneg _ (by norm_num),
    Int.emod_lt_of_pos _ (by norm_num), rfl, ?_⟩
  have hsum : (10 * (roundHalfEven (q * 10) / 10) + roundHalfEven (q * 10) % 10 : ℤ)
      = roundHalfEven (q * 10) := Int.ediv_add_emod _ _
  have hnear := roundHalfEven_near (q * 10)
  rw [abs_le] at hnear ⊢
  have hcast : ((roundHalfEven (q * 10) / 10 : ℤ) : ℚ)
      + ((roundHalfEven (q * 10) % 10 : ℤ) : ℚ) / 10
      = (roundHalfEven (q * 10) : ℚ) / 10 := by
    have h10 : ((10 * (roundHalfEven (q * 10) / 10) + roundHalfEven (q * 10) % 10 : ℤ) : ℚ)
        = ((roundHalfEven (q * 10) : ℤ) : ℚ) :=
      congrArg (fun z : ℤ => (z : ℚ)) hsum
    push_cast at h10
    linarith
  rw [hcast]
  constructor <;> linarith [hnear.1, hnear.2]

/-- C8: for every stats row the renderer prints the latency to exactly
one decimal place when `latency_ms` is present (a digit string, a
point, one digit, within 1/20 ms of the value) and the literal `"N/A"`
when it is absent, and prints the success rate as an integer percentage
rounded to a nearest integer (within 1/2 of the exact rate). -/
theorem C8_renderer_format (s : PingStats) :
    (s.latency_ms = none → (render_row s).latency = "N/A") ∧
    (∀ q : ℚ, s.latency_ms = some q → 0 ≤ q →
      ∃ m d : ℤ, 0 ≤ m ∧ 0 ≤ d ∧ d < 10 ∧
        (render_row s).latency = toString m ++ "." ++ toString d ∧
        |((m : ℚ) + (d : ℚ) / 10) - q| ≤ 1/20) ∧
    (render_row s).success_pct = toString (roundHalfEven s.success_rate) ++ "%" ∧
    |(roundHalfEven s.success_rate : ℚ) - s.success_rate| ≤ 1/2 := by
  refine ⟨fun h => by simp [render_row, latencyCell, h], fun q hq hq0 => ?_, rfl,
    roundHalfEven_near _⟩
  have hcell : (render_row s).latency = formatFixed1 q := by
    simp [render_row, latencyCell, hq]
  rw [hcell]
  exact formatFixed1_spec q hq0

/-- Witness for C8 at a record with one failed attempt and no latency. -/
theorem C8_witness :
    (render_row ⟨"8.8.8.8", 1, 0, none, false⟩).latency = "N/A" :=
  (C8_renderer_format ⟨"8.8.8.8", 1, 0, none, false⟩).1 rfl

theorem countP_set_eq (p : Phase → Bool) :
    ∀ (l : List Phase) (i : Nat) (a b : Phase), l.get? i = some a →
      (l.set i b).countP p + (if p a then 1 else 0) =
        l.countP p + (if p b then 1 else 0) := by
  intro l
  induction l with
  | nil => intro i a b h; simp at h
  | cons x t ih =>
    intro i a b h
    cases i with
    | zero =>
      simp only [List.get?] at h
      injection h with h
      subst h
      simp only [List.set, List.countP_cons]
      omega
    | succ j =>
      simp only [List.get?] at h
      simp only [List.set, List.countP_cons]
      have := ih j a b h
      omega

theorem countP_replicate_idle (p : Phase → Bool) (hp : p Phase.idle = false) :
    ∀ n : Nat, (List.replicate n Phase.idle).countP p = 0 := by
  intro n
  induction n with
  | zero => rfl
  | succ k ih => simp [List.replicate, List.countP_cons, ih, hp]

theorem permitInv_init (addresses : List String) :
    PermitInv (initConfig addresses) := by
  unfold PermitInv initConfig
  simp [countP_replicate_idle holdsPermit rfl]

theorem permitInv_step {addresses : List String} {c c' : Config}
    (h : Step addresses c c') (hi : PermitInv c) : PermitInv c' := by
  unfold PermitInv at hi ⊢
  unfold WINDOW_SIZE at hi ⊢
  cases h with
  | setStop => exact hi
  | loopExit i hp hs =>
    have h2 := countP_set_eq holdsPermit c.phases i _ Phase.done hp
    simp [holdsPermit] at h2
    simp only []
    omega
  | loopEnter i hp hs =>
    have h2 := countP_set_eq holdsPermit c.phases i _ Phase.acquiring hp
    simp [holdsPermit] at h2
    simp only []
    omega
  | acquire i k hp ha =>
    have h2 := countP_set_eq holdsPermit c.phases i _ Phase.acquired hp
    simp [holdsPermit] at h2
    simp only []
    omega
  | recheckStop i hp hs =>
    have h2 := countP_set_eq holdsPermit c.phases i _ Phase.done hp
    simp [holdsPermit] at h2
    simp only []
    omega
  | startProbe i a hp hs haddr =>
    have h2 := countP_set_eq holdsPermit c.phases i _ Phase.probing hp
    simp [holdsPermit] at h2
    simp only []
    omega
  | finishProbe i a env hp haddr =>
    have h2 := countP_set_eq holdsPermit c.phases i _ Phase.postProbe hp
    simp [holdsPermit] at h2
    simp only []
    omega
  | refreshExit i hp hs =>
    have h2 := countP_set_eq holdsPermit c.phases i _ Phase.done hp
    simp [holdsPermit] at h2
    simp only []
    omega
  | refreshSleep i hp hs =>
    have h2 := countP_set_eq holdsPermit c.phases i _ Phase.sleeping hp
    simp [holdsPermit] at h2
    simp only []
    omega
  | wake i hp =>
    have h2 := countP_set_eq holdsPermit c.phases i _ Phase.idle hp
    simp [holdsPermit] at h2
    simp only []
    omega

theorem permitInv_reachable {addresses : List String} {c : Config}
    (hr : Reachable addresses c) : PermitInv c := by
  unfold Reachable at hr
  induction hr with
  | refl => exact permitInv_init addresses
  | tail hab hbc ih => exact permitInv_step hbc ih

/-- C1: in every run with between 1 and 20 targets, at most 5 probes are
in flight simultaneously: in every reachable configuration the number
of concurrently executing `ping_target` calls never exceeds 5, because
a worker only probes while holding one of the gate's `WINDOW_SIZE = 5`
permits. -/
theorem C1_at_most_five_in_flight (addresses : List String)
    (_h1 : 1 ≤ addresses.length) (_h2 : addresses.length ≤ MAX_TARGETS)
    (c : Config) (hr : Reachable addresses c) :
    inFlight c ≤ 5 := by
  have hinv := permitInv_reachable hr
  unfold PermitInv WINDOW_SIZE at hinv
  unfold inFlight
  have hmono : c.phases.countP isProbing ≤ c.phases.countP holdsPermit := by
    apply List.countP_mono_left
    intro p _ hpp
    cases p <;> simp_all [isProbing, holdsPermit]
  omega

/-- Witness for C1: the initial configuration of a one-target run. -/
theorem C1_witness : inFlight (initConfig ["8.8.8.8"]) ≤ 5 :=
  C1_at_most_five_in_flight ["8.8.8.8"] (by decide) (by decide)
    (initConfig ["8.8.8.8"]) Relation.ReflTransGen.refl

theorem sent_frozen_step {addresses : List String} {c c' : Config}
    (h : Step addresses c c') (hs : c.stop = true) :
    c'.stop = true ∧ ∀ a, (c'.stats a).sent = (c.stats a).sent := by
  cases h with
  | setStop => exact ⟨rfl, fun a => rfl⟩
  | loopExit i hp hs' => exact ⟨hs, fun a => rfl⟩
  | loopEnter i hp hs' => rw [hs] at hs'; cases hs'
  | acquire i k hp ha => exact ⟨hs, fun a => rfl⟩
  | recheckStop i hp hs' => exact ⟨hs, fun a => rfl⟩
  | startProbe i a hp hs' haddr => rw [hs] at hs'; cases hs'
  | finishProbe i a env hp haddr =>
    refine ⟨hs, fun a' => ?_⟩
    simp only [updateStats]
    split
    · rfl
    · rfl
  | refreshExit i hp hs' => exact ⟨hs, fun a => rfl⟩
  | refreshSleep i hp hs' => rw [hs] at hs'; cases hs'
  | wake i hp => exact ⟨hs, fun a => rfl⟩

theorem sent_frozen_chain {addresses : List String} {c c' : Config}
    (h : Relation.ReflTransGen (Step addresses) c c') (hs : c.stop = true) :
    c'.stop = true ∧ ∀ a, (c'.stats a).sent = (c.stats a).sent := by
  induction h with
  | refl => exact ⟨hs, fun a => rfl⟩
  | tail hab hbc ih =>
    obtain ⟨hb, hsent⟩ := ih
    obtain ⟨hb', hsent'⟩ := sent_frozen_step hbc hb
    exact ⟨hb', fun a => (hsent' a).trans (hsent a)⟩

/-- C2: once the stop event is set, no target's `sent` counter increases
in any later configuration — in fact `sent` never changes at all after
the stop event is observed set, because the only step that increments
it (`startProbe`, the re-check after acquiring the gate permit followed
by `stat.sent += 1`) is enabled only while the stop event is clear; a
worker that acquires the permit while stopping releases it and
terminates without counting an attempt. -/
theorem C2_sent_frozen_after_stop (addresses : List String) (c c' : Config)
    (hstop : c.stop = true)
    (hsteps : Relation.ReflTransGen (Step addresses) c c') :
    ∀ a, (c'.stats a).sent = (c.stats a).sent :=
  (sent_frozen_chain hsteps hstop).2

/-- Witness for C2: a stopped one-target configuration takes the
top-of-loop exit step; the target's `sent` counter is unchanged. -/
theorem C2_witness :
    ((Config.mk true WINDOW_SIZE ([Phase.idle].set 0 Phase.done)
        (fun a => initStats a)).stats "8.8.8.8").sent =
      ((Config.mk true WINDOW_SIZE [Phase.idle]
        (fun a => initStats a)).stats "8.8.8.8").sent :=
  C2_sent_frozen_after_stop ["8.8.8.8"]
    (Config.mk true WINDOW_SIZE [Phase.idle] (fun a => initStats a))
    (Config.mk true WINDOW_SIZE ([Phase.idle].set 0 Phase.done)
      (fun a => initStats a))
    rfl
    (Relation.ReflTransGen.single
      (Step.loopExit
        (Config.mk true WINDOW_SIZE [Phase.idle] (fun a => initStats a))
        0 rfl rfl))
    "8.8.8.8"

theorem keys_dictInsert (d : List (String × PingStats)) (k : String)
    (v : PingStats) :
    (dictInsert d k v).map Prod.fst =
      if k ∈ d.map Prod.fst then d.map Prod.fst
      else d.map Prod.fst ++ [k] := by
  have hany : (d.any fun p => decide (p.1 = k)) = true ↔ k ∈ d.map Prod.fst := by
    rw [List.any_eq_true]
    constructor
    · rintro ⟨p, hp, hpk⟩
      rw [decide_eq_true_iff] at hpk
      exact List.mem_map.mpr ⟨p, hp, hpk⟩
    · intro h
      obtain ⟨p, hp, hpk⟩ := List.mem_map.mp h
      exact ⟨p, hp, by simp [hpk]⟩
  unfold dictInsert
  by_cases h : k ∈ d.map Prod.fst
  · rw [if_pos (hany.mpr h), if_pos h, List.map_map]
    apply List.map_congr_left
    intro p _
    by_cases hp : p.1 = k
    · simp [hp]
    · simp [hp]
  · rw [if_neg (fun hc => h (hany.mp hc)), if_neg h]
    simp

theorem nodup_keys_dictInsert {d : List (String × PingStats)} {k : String}
    {v : PingStats} (h : (d.map Prod.fst).Nodup) :
    ((dictInsert d k v).map Prod.fst).Nodup := by
  rw [keys_dictInsert]
  split
  · exact h
  · case isFalse hk =>
    rw [List.nodup_append]
    refine ⟨h, List.nodup_singleton k, ?_⟩
    intro x hx hxk
    rw [List.mem_singleton] at hxk
    subst hxk
    exact hk hx

theorem mem_keys_dictInsert {d : List (String × PingStats)} {k : String}
    {v : PingStats} (a : String) :
    a ∈ (dictInsert d k v).map Prod.fst ↔ a ∈ d.map Prod.fst ∨ a = k := by
  rw [keys_dictInsert]
  split
  · case isTrue hk =>
    constructor
    · exact Or.inl
    · rintro (h | rfl)
      · exact h
      · exact hk
  · simp

theorem buildStats_go_nodup :
    ∀ (l : List String) (d : List (String × PingStats)),
      (d.map Prod.fst).Nodup →
      ((l.foldl (fun d a => dictInsert d a (initStats a)) d).map Prod.fst).Nodup := by
  intro l
  induction l with
  | nil => exact fun d h => h
  | cons a t ih =>
    intro d h
    exact ih (dictInsert d a (initStats a)) (nodup_keys_dictInsert h)

theorem buildStats_go_mem :
    ∀ (l : List String) (d : List (String × PingStats)) (x : String),
      x ∈ (l.foldl (fun d a => dictInsert d a (initStats a)) d).map Prod.fst ↔
        x ∈ d.map Prod.fst ∨ x ∈ l := by
  intro l
  induction l with
  | nil => simp
  | cons a t ih =>
    intro d x
    simp only [List.foldl_cons]
    rw [ih (dictInsert d a (initStats a)) x, mem_keys_dictInsert]
    simp [List.mem_cons]
    tauto

/-- C10: when the address list contains the same address more than once,
the dict comprehension of `monitor_addresses` creates exactly one
`PingStats` record per distinct address (its keys are the addresses,
without duplicates), yet one `ping_worker` task is spawned per list
entry, so workers for duplicate entries mutate the shared record: for
the two-entry list `["10.0.0.1", "10.0.0.1"]` there is one record, two
workers, and a reachable configuration in which the shared record's
`sent` counter has accumulated both workers' increments. -/
theorem C10_duplicates_share_record :
    (∀ addresses : List String,
      ((buildStats addresses).map Prod.fst).Nodup ∧
      (∀ a, a ∈ (buildStats addresses).map Prod.fst ↔ a ∈ addresses) ∧
      (workerAddresses addresses).length = addresses.length ∧
      (initConfig addresses).phases.length = addresses.length) ∧
    (buildStats ["10.0.0.1", "10.0.0.1"]).length = 1 ∧
    (initConfig ["10.0.0.1", "10.0.0.1"]).phases.length = 2 ∧
    ∃ c : Config, Reachable ["10.0.0.1", "10.0.0.1"] c ∧
      (c.stats "10.0.0.1").sent = 2 := by
  refine ⟨fun addresses => ⟨buildStats_go_nodup addresses [] (by simp),
    fun a => by simpa using buildStats_go_mem addresses [] a,
    rfl, by simp [initConfig]⟩, by decide, by simp [initConfig], ?_⟩
  exact ⟨_,
    Relation.ReflTransGen.tail
      (Relation.ReflTransGen.tail
        (Relation.ReflTransGen.tail
          (Relation.ReflTransGen.tail
            (Relation.ReflTransGen.tail
              (Relation.ReflTransGen.single
                (Step.loopEnter (initConfig ["10.0.0.1", "10.0.0.1"]) 0 rfl rfl))
              (Step.acquire _ 0 4 rfl rfl))
            (Step.startProbe _ 0 "10.0.0.1" rfl rfl rfl))
          (Step.loopEnter _ 1 rfl rfl))
        (Step.acquire _ 1 3 rfl rfl))
      (Step.startProbe _ 1 "10.0.0.1" rfl rfl rfl),
    by decide⟩

end MultiPing
